import Mathlib

/-!
Verification of the FGVC (fine-grained visual classification) assembly
library: a shallow embedding of `fgvclib/apis/build.py`,
`fgvclib/apis/save_model.py` and `fgvclib/datasets/datasets.py`, together
with theorems settling the specification's claims about them.

Python strings are `String`, Python lists are `List`, Python dicts are
insertion-ordered association lists (`List (κ × ν)`) updated by
`dictInsert`, learning rates are `ℚ`, and fallible operations return
`Except`/`Option`.  Filesystem and logger effects are explicit state
records.
-/

/-- POSIX `os.path.join` for two components, as used by the sources:
if the second component is absolute it wins; otherwise it is appended,
inserting a separator unless the first component is empty or already
ends in one. -/
def osPathJoin (a b : String) : String :=
  if b.data.head? = some '/' then b
  else if a = "" ∨ a.data.getLast? = some '/' then a ++ b
  else a ++ "/" ++ b

/-- POSIX `os.path.basename`: the characters after the last separator. -/
def pyBasename (p : String) : String :=
  String.mk ((p.data.reverse.takeWhile (fun c => !(c == '/'))).reverse)

/-- POSIX `os.path.dirname` (simplified: a lone leading separator is not
preserved): the characters before the last separator. -/
def pyDirname (p : String) : String :=
  String.mk (((p.data.reverse.dropWhile (fun c => !(c == '/'))).drop 1).reverse)

/-- Python `str.endswith`. -/
def strEndsWith (s pat : String) : Bool :=
  decide (s.data.reverse.take pat.data.length = pat.data.reverse)

/-- Does the first list occur as an initial segment of the second? -/
def startsWithL {α : Type} [DecidableEq α] : List α → List α → Bool
  | [], _ => true
  | _ :: _, [] => false
  | a :: pa, b :: sb => decide (a = b) && startsWithL pa sb

/-- Does the first list occur contiguously anywhere in the second? -/
def containsSub {α : Type} [DecidableEq α] (pat : List α) : List α → Bool
  | [] => pat.isEmpty
  | b :: sb => startsWithL pat (b :: sb) || containsSub pat sb

/-- Python `str.__contains__` (substring test). -/
def strContains (s pat : String) : Bool :=
  containsSub pat.data s.data

/-- Python `str.split('.')[0]`: the characters before the first dot. -/
def headBeforeDot (s : String) : String :=
  String.mk (s.data.takeWhile (fun c => !(c == '.')))

/-- Python `dict.update({k: v})` on an insertion-ordered association
list: replace the value at an existing key in place, else append the new
binding at the end. -/
def dictInsert {κ ν : Type} [BEq κ] : List (κ × ν) → κ → ν → List (κ × ν)
  | [], k, v => [(k, v)]
  | kv :: rest, k, v =>
      if kv.1 == k then (k, v) :: rest else kv :: dictInsert rest k v

theorem lookup_dictInsert_self {κ ν : Type} [BEq κ] [LawfulBEq κ] (d : List (κ × ν)) (k : κ)
    (v : ν) : List.lookup k (dictInsert d k v) = some v := by
  induction d with
  | nil => simp [dictInsert, List.lookup]
  | cons kv rest ih =>
      by_cases h : (kv.1 == k) = true
      · simp [dictInsert, h, List.lookup]
      · simp only [dictInsert, if_neg h, List.lookup]
        have hne : (k == kv.1) = false := by
          rw [beq_eq_false_iff_ne]
          intro he
          exact h (by simp [he])
        simp [hne, ih]

theorem lookup_dictInsert_ne {κ ν : Type} [BEq κ] [LawfulBEq κ] (d : List (κ × ν)) (k k' : κ)
    (v : ν) (h : k' ≠ k) : List.lookup k' (dictInsert d k v) = List.lookup k' d := by
  induction d with
  | nil => simp [dictInsert, List.lookup, beq_eq_false_iff_ne.mpr h]
  | cons kv rest ih =>
      by_cases hk : (kv.1 == k) = true
      · have hk' : kv.1 = k := by simpa using hk
        subst hk'
        simp [dictInsert, List.lookup, beq_eq_false_iff_ne.mpr h]
      · simp only [dictInsert, if_neg hk, List.lookup]
        cases hbe : (k' == kv.1) <;> simp [ih]

theorem dictInsert_of_not_mem {κ ν : Type} [BEq κ] [LawfulBEq κ] (d : List (κ × ν)) (k : κ)
    (v : ν) (h : k ∉ d.map Prod.fst) : dictInsert d k v = d ++ [(k, v)] := by
  induction d with
  | nil => simp [dictInsert]
  | cons kv rest ih =>
      simp only [List.map_cons, List.mem_cons] at h
      push_neg at h
      have hne : ¬ ((kv.1 == k) = true) := by
        simp only [beq_iff_eq]
        exact fun he => h.1 he.symm
      simp only [dictInsert, if_neg hne, List.cons_append]
      rw [ih h.2]

/-! ## Optimizer construction (`build_optimizer`, `fgvclib/apis/build.py`) -/

/-- The fixed component-name tags tested against parameter names. -/
def model_attrs : List String := ["backbone", "encoder", "necks", "heads"]

/-- One entry of `model.named_parameters()`: the qualified name and the
`requires_grad` flag. -/
structure NamedParam where
  name : String
  requires_grad : Bool
deriving DecidableEq

/-- The parameter-group entries contributed by one named parameter in
`build_optimizer`'s loop: nothing when it is frozen; otherwise one
`{params: p, lr: LR[attr]}` group per tag contained in its name, and the
single `{params: p, lr: LR[base]}` group when no tag matched
(`is_other`). -/
def paramEntries (lr : String → ℚ) (p : NamedParam) : List (String × ℚ) :=
  if p.requires_grad then
    let matched := model_attrs.filter (fun attr => strContains p.name attr)
    if matched.isEmpty then [(p.name, lr "base")]
    else matched.map (fun attr => (p.name, lr attr))
  else []

/-- The full parameter-group list built by `build_optimizer`'s loop over
`m.named_parameters()`. -/
def buildParamGroups (lr : String → ℚ) (ps : List NamedParam) : List (String × ℚ) :=
  ps.flatMap (paramEntries lr)

/-- `build_optimizer`: build the group list, look the optimizer
constructor up by name, and invoke it with the group list, the base
learning rate `optim_cfg.LR.base`, and the extra arguments. -/
def build_optimizer {δ ω : Type} (optReg : List (String × (List (String × ℚ) → ℚ → δ → ω)))
    (name : String) (args : δ) (lr : String → ℚ) (ps : List NamedParam) : Except String ω :=
  match List.lookup name optReg with
  | some ctor => Except.ok (ctor (buildParamGroups lr ps) (lr "base") args)
  | none => Except.error ("NotFound: " ++ name)

theorem paramEntries_name {lr : String → ℚ} {p : NamedParam} {g : String × ℚ}
    (hg : g ∈ paramEntries lr p) : g.1 = p.name := by
  simp only [paramEntries] at hg
  split at hg
  · split at hg
    · simp only [List.mem_singleton] at hg
      rw [hg]
    · obtain ⟨a, _, rfl⟩ := List.mem_map.mp hg
      rfl
  · simp at hg

theorem filter_buildParamGroups (lr : String → ℚ) (ps : List NamedParam) (p : NamedParam)
    (hmem : p ∈ ps) (hnd : (ps.map NamedParam.name).Nodup) :
    (buildParamGroups lr ps).filter (fun g => decide (g.1 = p.name)) = paramEntries lr p := by
  induction ps with
  | nil => cases hmem
  | cons q rest ih =>
      simp only [List.map_cons, List.nodup_cons] at hnd
      simp only [buildParamGroups, List.flatMap_cons, List.filter_append]
      rcases List.mem_cons.mp hmem with hpq | hpr
      · subst hpq
        have h1 : (paramEntries lr p).filter (fun g => decide (g.1 = p.name)) =
            paramEntries lr p :=
          List.filter_eq_self.mpr (fun g hg => by simp [paramEntries_name hg])
        have h2 : ((rest.flatMap (paramEntries lr)).filter
            (fun g => decide (g.1 = p.name))) = [] := by
          rw [List.filter_eq_nil_iff]
          intro g hg
          obtain ⟨q', hq', hgq'⟩ := List.mem_flatMap.mp hg
          have hn := paramEntries_name hgq'
          simp only [decide_eq_true_eq]
          intro he
          have hpq' : q'.name = p.name := by rw [← hn, he]
          exact hnd.1 (hpq' ▸ List.mem_map_of_mem NamedParam.name hq')
        rw [h1, h2, List.append_nil]
      · have hqp : q.name ≠ p.name := by
          intro he
          exact hnd.1 (he ▸ List.mem_map_of_mem NamedParam.name hpr)
        have h1 : (paramEntries lr q).filter (fun g => decide (g.1 = p.name)) = [] := by
          rw [List.filter_eq_nil_iff]
          intro g hg
          have hn := paramEntries_name hg
          simp only [decide_eq_true_eq]
          rw [hn]
          exact hqp
        rw [h1, List.nil_append]
        exact ih hpr hnd.2

/-- A sample learning-rate table with five distinguishable rates. -/
def lrEx (s : String) : ℚ :=
  if s = "backbone" then 1 else if s = "encoder" then 2 else if s = "necks" then 3
  else if s = "heads" then 4 else if s = "base" then 5 else 0

/-- C2 (amended): in `build_optimizer`, a trainable parameter (of a model
whose parameter names are distinct) receives one parameter group per
component-name tag whose string is a substring of its qualified name, in
tag order, each with that tag's learning rate; it receives the single
"base"-rate group exactly when no tag matches.  (As stated, the claim
fails: a name matching several tags is put in one group per matching
tag, not only in the first matching tag's group.) -/
theorem build_optimizer_group_assignment (lr : String → ℚ) (ps : List NamedParam)
    (p : NamedParam) (hmem : p ∈ ps) (hnd : (ps.map NamedParam.name).Nodup)
    (hg : p.requires_grad = true) :
    (buildParamGroups lr ps).filter (fun g => decide (g.1 = p.name)) =
      if model_attrs.filter (fun attr => strContains p.name attr) = []
      then [(p.name, lr "base")]
      else (model_attrs.filter (fun attr => strContains p.name attr)).map
             (fun attr => (p.name, lr attr)) := by
  rw [filter_buildParamGroups lr ps p hmem hnd]
  simp only [paramEntries, hg, if_true]
  by_cases he : model_attrs.filter (fun attr => strContains p.name attr) = []
  · simp [he]
  · simp only [if_neg he]
    rw [if_neg (by simpa [List.isEmpty_iff] using he)]

theorem build_optimizer_group_assignment_witness :
    (buildParamGroups lrEx [⟨"backbone.conv1.w", true⟩, ⟨"fc.w", true⟩]).filter
        (fun g => decide (g.1 = "fc.w")) = [("fc.w", 5)] := by
  have h := build_optimizer_group_assignment lrEx
      [⟨"backbone.conv1.w", true⟩, ⟨"fc.w", true⟩] ⟨"fc.w", true⟩
      (by decide) (by decide) rfl
  exact h.trans (by decide)

/-- C2 counterexample: the trainable parameter named
`"backbone.encoder.w"` contains two tags, and `build_optimizer`'s group
list holds two entries for it (rates of `backbone` and of `encoder`),
not the single first-matching-tag group the claim asserts. -/
theorem multi_tag_param_in_two_groups :
    buildParamGroups lrEx [⟨"backbone.encoder.w", true⟩]
      = [("backbone.encoder.w", 1), ("backbone.encoder.w", 2)] ∧
    ¬ (buildParamGroups lrEx [⟨"backbone.encoder.w", true⟩]).length = 1 := by
  decide

/-- C3: in `build_optimizer`, a trainable parameter (of a model with
distinct parameter names) whose qualified name contains at least two of
the tag substrings is appended to the group list once per matching tag,
each time with that tag's learning rate, and receives no "base"-rate
group: its entries are exactly the per-tag ones, and there are at least
two of them. -/
theorem multi_tag_param_once_per_tag (lr : String → ℚ) (ps : List NamedParam)
    (p : NamedParam) (hmem : p ∈ ps) (hnd : (ps.map NamedParam.name).Nodup)
    (hg : p.requires_grad = true)
    (hmulti : 2 ≤ (model_attrs.filter (fun attr => strContains p.name attr)).length) :
    (buildParamGroups lr ps).filter (fun g => decide (g.1 = p.name)) =
      (model_attrs.filter (fun attr => strContains p.name attr)).map
        (fun attr => (p.name, lr attr)) ∧
    2 ≤ ((buildParamGroups lr ps).filter (fun g => decide (g.1 = p.name))).length := by
  have hne : model_attrs.filter (fun attr => strContains p.name attr) ≠ [] := by
    intro he
    rw [he] at hmulti
    simp at hmulti
  have h := filter_buildParamGroups lr ps p hmem hnd
  rw [h]
  simp only [paramEntries, hg, if_true]
  rw [if_neg (by simpa [List.isEmpty_iff] using hne)]
  exact ⟨rfl, by simpa using hmulti⟩

theorem multi_tag_param_once_per_tag_witness :
    (buildParamGroups lrEx [⟨"backbone.encoder.w", true⟩]).filter
        (fun g => decide (g.1 = "backbone.encoder.w"))
      = [("backbone.encoder.w", 1), ("backbone.encoder.w", 2)] := by
  have h := multi_tag_param_once_per_tag lrEx [⟨"backbone.encoder.w", true⟩]
      ⟨"backbone.encoder.w", true⟩ (by decide) (by decide) rfl (by decide)
  exact h.1.trans (by decide)

/-- The learning-rate table of C4: `LR = {backbone: 0.01, base: 0.001}`. -/
def lrC4 (s : String) : ℚ :=
  if s = "backbone" then 1/100 else if s = "base" then 1/1000 else 0

/-- C4: with learning rates `{backbone: 0.01, base: 0.001}` and trainable
parameters `"backbone.conv1.weight"` and `"head.fc.weight"`,
`build_optimizer` assigns the first the rate 0.01 and the second (which
matches no tag) the rate 0.001, and hands the group list and the base
rate to the optimizer constructor registered under the requested name. -/
theorem build_optimizer_example :
    build_optimizer
        ([("sgd", fun gs b _ => (gs, b))] :
          List (String × (List (String × ℚ) → ℚ → Unit → List (String × ℚ) × ℚ)))
        "sgd" () lrC4
        [⟨"backbone.conv1.weight", true⟩, ⟨"head.fc.weight", true⟩]
      = Except.ok ([("backbone.conv1.weight", 1/100), ("head.fc.weight", 1/1000)], 1/1000) := by
  rfl

/-! ## Registries (`get_backbone`, `get_encoder`, ..., spec §4.1) -/

/-- Modelled from the spec: the name-to-constructor registries behind
`get_backbone`, `get_encoder`, `get_neck`, `get_head`, `get_criterion`,
`get_optimizer`, ... are not part of the excerpt (only their call sites
are).  Per the spec, each is a mapping from string name to constructor,
populated by registration calls and looked up by exact string key. -/
abbrev Registry (α : Type) : Type := List (String × α)

/-- Modelled from the spec: `register(name, constructor)` records a
binding (overwriting an existing one, one of the two behaviours the spec
allows). -/
def Registry.register {α : Type} (r : Registry α) (n : String) (c : α) : Registry α :=
  dictInsert r n c

/-- The registry with no registrations. -/
def Registry.emptyReg {α : Type} : Registry α := []

/-- Modelled from the spec: `get(name)` returns the constructor
registered under `name`, and fails with a NotFound error if `name` is
absent. -/
def Registry.get {α : Type} (r : Registry α) (n : String) : Except String α :=
  match List.lookup n r with
  | some c => Except.ok c
  | none => Except.error ("NotFound: " ++ n)

/-! ## Model construction (`build_model`, `fgvclib/apis/build.py`) -/

/-- One item of `model_cfg.CRITERIONS`: a name, constructor arguments,
and a loss weight `w`. -/
structure CritCfg (γ : Type) where
  name : String
  args : γ
  w : ℚ

/-- The slice of the model config node read by `build_model`; `γ` is the
type of the (already `turn_list_to_dict`-converted) `ARGS` mappings. -/
structure ModelCfg (γ : Type) where
  name : String
  backboneName : String
  backboneArgs : γ
  encoderName : String
  encoderArgs : γ
  necksName : String
  necksArgs : γ
  headsName : String
  headsArgs : γ
  classNum : Nat
  criterions : List (CritCfg γ)

/-- The assembled model: the parts `build_model` passes to the
registered top-level model constructor (the constructor itself is
treated as the record former).  `α` is the component type, `β` the head
type, `ε` the criterion-function type. -/
structure BuiltModel (α β ε : Type) where
  backbone : α
  encoder : Option α
  necks : Option α
  heads : β
  criterions : List (String × (ε × ℚ))

/-- `build_criterion`: look the criterion constructor up and apply it to
the item's arguments. -/
def build_criterion {γ ε : Type} (cReg : Registry (γ → ε)) (item : CritCfg γ) :
    Except String ε :=
  match Registry.get cReg item.name with
  | Except.ok b => Except.ok (b item.args)
  | Except.error e => Except.error e

/-- The loop over `model_cfg.CRITERIONS`: build each criterion and
collect `name ↦ (function, weight)` into an insertion-ordered dict. -/
def build_criterions {γ ε : Type} (cReg : Registry (γ → ε)) :
    List (CritCfg γ) → List (String × (ε × ℚ)) → Except String (List (String × (ε × ℚ)))
  | [], acc => Except.ok acc
  | item :: rest, acc =>
      match build_criterion cReg item with
      | Except.error e => Except.error e
      | Except.ok fn => build_criterions cReg rest (dictInsert acc item.name (fn, item.w))

/-- The optional-component pattern of `build_model`: an empty (falsy)
name yields `None` without consulting the registry; a non-empty name is
looked up and the constructor applied to the component's arguments. -/
def buildOptionalComponent {γ α : Type} (reg : Registry (γ → α)) (name : String) (args : γ) :
    Except String (Option α) :=
  if name = "" then Except.ok none
  else
    match Registry.get reg name with
    | Except.ok b => Except.ok (some (b args))
    | Except.error e => Except.error e

/-- `build_model`: construct backbone (required), encoder (optional),
necks (optional), heads (required, parameterized by `CLASS_NUM`), then
the criterions, and hand all parts to the model constructor. -/
def build_model {γ α β ε : Type} (bReg eReg nReg : Registry (γ → α))
    (hReg : Registry (Nat → γ → β)) (cReg : Registry (γ → ε)) (cfg : ModelCfg γ) :
    Except String (BuiltModel α β ε) :=
  match Registry.get bReg cfg.backboneName with
  | Except.error e => Except.error e
  | Except.ok bb =>
    match buildOptionalComponent eReg cfg.encoderName cfg.encoderArgs with
    | Except.error e => Except.error e
    | Except.ok enc =>
      match buildOptionalComponent nReg cfg.necksName cfg.necksArgs with
      | Except.error e => Except.error e
      | Except.ok nk =>
        match Registry.get hReg cfg.headsName with
        | Except.error e => Except.error e
        | Except.ok hb =>
          match build_criterions cReg cfg.criterions [] with
          | Except.error e => Except.error e
          | Except.ok crits =>
              Except.ok { backbone := bb cfg.backboneArgs, encoder := enc, necks := nk,
                          heads := hb cfg.classNum cfg.headsArgs, criterions := crits }

theorem buildOptionalComponent_empty {γ α : Type} (reg : Registry (γ → α)) (args : γ) :
    buildOptionalComponent reg "" args = Except.ok none := by
  simp [buildOptionalComponent]

theorem build_model_ok_encoder {γ α β ε : Type} {bReg eReg nReg : Registry (γ → α)}
    {hReg : Registry (Nat → γ → β)} {cReg : Registry (γ → ε)} {cfg : ModelCfg γ}
    {m : BuiltModel α β ε}
    (hm : build_model bReg eReg nReg hReg cReg cfg = Except.ok m) :
    buildOptionalComponent eReg cfg.encoderName cfg.encoderArgs = Except.ok m.encoder := by
  simp only [build_model] at hm
  cases hb : Registry.get bReg cfg.backboneName with
  | error e => rw [hb] at hm; simp at hm
  | ok bb =>
      rw [hb] at hm
      cases he : buildOptionalComponent eReg cfg.encoderName cfg.encoderArgs with
      | error e => rw [he] at hm; simp at hm
      | ok enc =>
          rw [he] at hm
          cases hn : buildOptionalComponent nReg cfg.necksName cfg.necksArgs with
          | error e => rw [hn] at hm; simp at hm
          | ok nk =>
              rw [hn] at hm
              cases hh : Registry.get hReg cfg.headsName with
              | error e => rw [hh] at hm; simp at hm
              | ok hb' =>
                  rw [hh] at hm
                  cases hc : build_criterions cReg cfg.criterions [] with
                  | error e => rw [hc] at hm; simp at hm
                  | ok crits =>
                      rw [hc] at hm
                      injection hm with h
                      rw [← h]

theorem build_model_ok_necks {γ α β ε : Type} {bReg eReg nReg : Registry (γ → α)}
    {hReg : Registry (Nat → γ → β)} {cReg : Registry (γ → ε)} {cfg : ModelCfg γ}
    {m : BuiltModel α β ε}
    (hm : build_model bReg eReg nReg hReg cReg cfg = Except.ok m) :
    buildOptionalComponent nReg cfg.necksName cfg.necksArgs = Except.ok m.necks := by
  simp only [build_model] at hm
  cases hb : Registry.get bReg cfg.backboneName with
  | error e => rw [hb] at hm; simp at hm
  | ok bb =>
      rw [hb] at hm
      cases he : buildOptionalComponent eReg cfg.encoderName cfg.encoderArgs with
      | error e => rw [he] at hm; simp at hm
      | ok enc =>
          rw [he] at hm
          cases hn : buildOptionalComponent nReg cfg.necksName cfg.necksArgs with
          | error e => rw [hn] at hm; simp at hm
          | ok nk =>
              rw [hn] at hm
              cases hh : Registry.get hReg cfg.headsName with
              | error e => rw [hh] at hm; simp at hm
              | ok hb' =>
                  rw [hh] at hm
                  cases hc : build_criterions cReg cfg.criterions [] with
                  | error e => rw [hc] at hm; simp at hm
                  | ok crits =>
                      rw [hc] at hm
                      injection hm with h
                      rw [← h]

/-- C5: in `build_model`, an empty (falsy) `ENCODER.NAME` makes the
constructed model's encoder component `none` and the encoder registry is
never consulted (the result is the same for any encoder registry); a
non-empty `ENCODER.NAME` registered to constructor `c` makes the encoder
`c` applied to the encoder arguments.  The same rule holds for
`NECKS.NAME` and the neck component. -/
theorem build_model_optional_components {γ α β ε : Type}
    (bReg eReg eReg' nReg nReg' : Registry (γ → α)) (hReg : Registry (Nat → γ → β))
    (cReg : Registry (γ → ε)) (cfg : ModelCfg γ) :
    (cfg.encoderName = "" →
      build_model bReg eReg nReg hReg cReg cfg = build_model bReg eReg' nReg hReg cReg cfg ∧
      ∀ m, build_model bReg eReg nReg hReg cReg cfg = Except.ok m → m.encoder = none) ∧
    (∀ c, cfg.encoderName ≠ "" → List.lookup cfg.encoderName eReg = some c →
      ∀ m, build_model bReg eReg nReg hReg cReg cfg = Except.ok m →
        m.encoder = some (c cfg.encoderArgs)) ∧
    (cfg.necksName = "" →
      build_model bReg eReg nReg hReg cReg cfg = build_model bReg eReg nReg' hReg cReg cfg ∧
      ∀ m, build_model bReg eReg nReg hReg cReg cfg = Except.ok m → m.necks = none) ∧
    (∀ c, cfg.necksName ≠ "" → List.lookup cfg.necksName nReg = some c →
      ∀ m, build_model bReg eReg nReg hReg cReg cfg = Except.ok m →
        m.necks = some (c cfg.necksArgs)) := by
  refine ⟨fun hE => ⟨?_, fun m hm => ?_⟩, fun c hne hlook m hm => ?_,
    fun hN => ⟨?_, fun m hm => ?_⟩, fun c hne hlook m hm => ?_⟩
  · simp only [build_model, hE, buildOptionalComponent_empty]
  · have h := build_model_ok_encoder hm
    rw [hE, buildOptionalComponent_empty] at h
    injection h with h'
    exact h'.symm
  · have h := build_model_ok_encoder hm
    rw [buildOptionalComponent, if_neg hne] at h
    simp only [Registry.get, hlook] at h
    injection h with h'
    exact h'.symm
  · simp only [build_model, hN, buildOptionalComponent_empty]
  · have h := build_model_ok_necks hm
    rw [hN, buildOptionalComponent_empty] at h
    injection h with h'
    exact h'.symm
  · have h := build_model_ok_necks hm
    rw [buildOptionalComponent, if_neg hne] at h
    simp only [Registry.get, hlook] at h
    injection h with h'
    exact h'.symm

/-- Concrete registries for exercising `build_model`. -/
def bRegW : Registry (Nat → Nat) := [("resnet", fun n => n + 1)]

def eRegW : Registry (Nat → Nat) := [("enc", fun n => n * 2)]

def nRegW : Registry (Nat → Nat) := [("nk", fun n => n * 3)]

def hRegW : Registry (Nat → Nat → Nat) := [("fc", fun cn a => cn + a)]

def cRegW : Registry (Nat → Nat) := [("ce", fun n => n)]

/-- A model config with an empty encoder name and a registered neck. -/
def cfgW : ModelCfg Nat :=
  { name := "m", backboneName := "resnet", backboneArgs := 1,
    encoderName := "", encoderArgs := 2, necksName := "nk", necksArgs := 3,
    headsName := "fc", headsArgs := 4, classNum := 10,
    criterions := [⟨"ce", 5, 1⟩] }

theorem build_model_optional_components_witness :
    build_model bRegW eRegW nRegW hRegW cRegW cfgW
      = Except.ok ⟨2, none, some 9, 14, [("ce", (5, 1))]⟩ ∧
    BuiltModel.encoder (⟨2, none, some 9, 14, [("ce", (5, 1))]⟩ : BuiltModel Nat Nat Nat)
      = none ∧
    BuiltModel.necks (⟨2, none, some 9, 14, [("ce", (5, 1))]⟩ : BuiltModel Nat Nat Nat)
      = some ((fun n => n * 3) 3) := by
  refine ⟨rfl, ?_, ?_⟩
  · exact ((build_model_optional_components bRegW eRegW Registry.emptyReg nRegW
      Registry.emptyReg hRegW cRegW cfgW).1 rfl).2 _ rfl
  · exact (build_model_optional_components bRegW eRegW Registry.emptyReg nRegW
      Registry.emptyReg hRegW cRegW cfgW).2.2.2 (fun n => n * 3) (by decide) rfl _ rfl

/-- C7: for every registry and name N, `get` after registering
constructor `c` under N returns exactly `c`; registering under a
different name M leaves `get N` unchanged; and on a registry where
nothing was registered under N (here: the empty registry), `get N`
fails with a NotFound error.  Together these settle `get` for any
sequence of registrations. -/
theorem registry_register_get {α : Type} (r : Registry α) (N M : String) (c d : α)
    (hne : M ≠ N) :
    Registry.get (Registry.register r N c) N = Except.ok c ∧
    Registry.get (Registry.register r M d) N = Registry.get r N ∧
    Registry.get (Registry.emptyReg : Registry α) N = Except.error ("NotFound: " ++ N) := by
  refine ⟨?_, ?_, rfl⟩
  · simp [Registry.get, Registry.register, lookup_dictInsert_self]
  · simp [Registry.get, Registry.register, lookup_dictInsert_ne r M N d (Ne.symm hne)]

theorem registry_register_get_witness :
    Registry.get (Registry.register [("x", 1)] "a" 2) "a" = Except.ok 2 ∧
    Registry.get (Registry.register ([("x", 1)] : Registry Nat) "b" 3) "a"
      = Registry.get [("x", 1)] "a" ∧
    Registry.get (Registry.emptyReg : Registry Nat) "a" = Except.error ("NotFound: " ++ "a") :=
  registry_register_get [("x", 1)] "a" "b" 2 3 (by decide)

/-! ## Checkpoint saving (`save_model`, `fgvclib/apis/save_model.py`) -/

/-- The `WEIGHT` slice of the root config read by `save_model`. -/
structure SaveCfg where
  weightName : String
  saveDir : String

/-- The world `save_model` acts on: existing directories, written
checkpoint files (path ↦ serialized state), logger messages, whether the
logger was closed, and whether the process was terminated (`exit()`). -/
structure SaveState where
  dirs : List String
  files : List (String × String)
  logMessages : List String
  loggerClosed : Bool
  exited : Bool
deriving DecidableEq

/-- `save_model`: a falsy `WEIGHT.NAME` does nothing.  Otherwise, if the
save directory is absent it is created (`mkdirSucceeds` says whether
`os.mkdir` succeeds; on failure the message is logged, the logger closed
and the process terminated).  With the directory present, the model
state is written to `SAVE_DIR/NAME` and the save is logged. -/
def save_model (mkdirSucceeds : Bool) (cfg : SaveCfg) (modelState : String)
    (s : SaveState) : SaveState :=
  if cfg.weightName = "" then s
  else
    if s.dirs.contains cfg.saveDir then
      let save_path := osPathJoin cfg.saveDir cfg.weightName
      { s with files := s.files ++ [(save_path, modelState)],
               logMessages := s.logMessages ++ ["Saving checkpoint to " ++ save_path] }
    else if mkdirSucceeds then
      let s1 : SaveState := { s with dirs := s.dirs ++ [cfg.saveDir] }
      let save_path := osPathJoin cfg.saveDir cfg.weightName
      { s1 with files := s1.files ++ [(save_path, modelState)],
                logMessages := s1.logMessages ++ ["Saving checkpoint to " ++ save_path] }
    else
      { s with logMessages := s.logMessages ++ ["Cannot create save dir under " ++ cfg.saveDir],
               loggerClosed := true, exited := true }

/-- C6: with a non-empty `WEIGHT.NAME`, if the save directory is absent
and its creation fails, `save_model` logs the failure, closes the
logger and terminates the process, writing no checkpoint file (the
function returns a state rather than raising); if the directory exists
or is created, the model state is written to `SAVE_DIR/NAME`, the save
is logged, and the process continues. -/
theorem save_model_spec (mk : Bool) (cfg : SaveCfg) (ms : String) (s : SaveState)
    (hname : cfg.weightName ≠ "") :
    (s.dirs.contains cfg.saveDir = false → mk = false →
      (save_model mk cfg ms s).files = s.files ∧
      (save_model mk cfg ms s).dirs = s.dirs ∧
      (save_model mk cfg ms s).logMessages
        = s.logMessages ++ ["Cannot create save dir under " ++ cfg.saveDir] ∧
      (save_model mk cfg ms s).loggerClosed = true ∧
      (save_model mk cfg ms s).exited = true) ∧
    (s.dirs.contains cfg.saveDir = true ∨ mk = true →
      (save_model mk cfg ms s).files
        = s.files ++ [(osPathJoin cfg.saveDir cfg.weightName, ms)] ∧
      (save_model mk cfg ms s).logMessages
        = s.logMessages ++ ["Saving checkpoint to " ++ osPathJoin cfg.saveDir cfg.weightName] ∧
      (save_model mk cfg ms s).loggerClosed = s.loggerClosed ∧
      (save_model mk cfg ms s).exited = s.exited) := by
  constructor
  · intro hd hmk
    subst hmk
    have hd' : cfg.saveDir ∉ s.dirs := by simpa using hd
    simp [save_model, hname, hd']
  · intro h
    rcases h with hd | hmk
    · have hd' : cfg.saveDir ∈ s.dirs := by simpa using hd
      simp [save_model, hname, hd']
    · subst hmk
      by_cases hd : cfg.saveDir ∈ s.dirs
      · simp [save_model, hname, hd]
      · simp [save_model, hname, hd]

theorem save_model_spec_witness :
    (save_model false ⟨"ck.pth", "out"⟩ "m" ⟨[], [], [], false, false⟩).exited = true ∧
    (save_model true ⟨"ck.pth", "out"⟩ "m" ⟨[], [], [], false, false⟩).files
      = [(osPathJoin "out" "ck.pth", "m")] := by
  constructor
  · exact ((save_model_spec false ⟨"ck.pth", "out"⟩ "m" ⟨[], [], [], false, false⟩
      (by decide)).1 rfl rfl).2.2.2.2
  · have h := ((save_model_spec true ⟨"ck.pth", "out"⟩ "m" ⟨[], [], [], false, false⟩
      (by decide)).2 (Or.inr rfl)).1
    simpa using h

/-- C9: with an empty (falsy) `WEIGHT.NAME`, `save_model` changes
nothing: no directory is checked or created, no file written, nothing
logged, and the logger and process flags are untouched. -/
theorem save_model_noop (mk : Bool) (cfg : SaveCfg) (ms : String) (s : SaveState)
    (h : cfg.weightName = "") : save_model mk cfg ms s = s := by
  simp [save_model, h]

theorem save_model_noop_witness :
    save_model true ⟨"", "out"⟩ "m" ⟨["d"], [("f", "x")], ["hello"], false, false⟩
      = ⟨["d"], [("f", "x")], ["hello"], false, false⟩ :=
  save_model_noop true ⟨"", "out"⟩ "m" ⟨["d"], [("f", "x")], ["hello"], false, false⟩ rfl

/-! ## CUB_200_2011 dataset (`fgvclib/datasets/datasets.py`) -/

/-- The hardcoded archive URL of `CUB_200_2011.download_link`. -/
def download_link : String :=
  "https://data.caltech.edu/records/65de6-vp158/files/CUB_200_2011.tgz?download=1"

/-- The class attribute `CUB_200_2011.image_dir`. -/
def image_dir : String := "CUB_200_2011/CUB_200_2011/images/"

/-- `CUB_200_2011._load_samples`.  The two manifest files are passed as
already-split two-column line lists.  Note: the source opens
`self.split_file` for BOTH passes — the `images_list_file` attribute is
declared on the class but never read — so the second pass unpacks the
split file's train/test flag into its `image_path` variable; the
`imagesLines` parameter is accordingly unused, mirroring the source. -/
def load_samples (root : String) (splitLines : List (String × String))
    (imagesLines : List (String × String)) (split : String) : List String :=
  let mode := if split = "train" then "1" else "0"
  let image_ids := (splitLines.filter (fun l => l.2 == mode)).map Prod.fst
  (splitLines.filter (fun l => image_ids.contains l.1)).map
    (fun l => osPathJoin (osPathJoin root image_dir) l.2)

/-- What `_load_samples` was meant to produce per the spec: resolve the
ids selected from the split manifest through the images-list file. -/
def load_samples_spec (root : String) (splitLines : List (String × String))
    (imagesLines : List (String × String)) (split : String) : List String :=
  let mode := if split = "train" then "1" else "0"
  let image_ids := (splitLines.filter (fun l => l.2 == mode)).map Prod.fst
  (imagesLines.filter (fun l => image_ids.contains l.1)).map
    (fun l => osPathJoin (osPathJoin root image_dir) l.2)

/-- C1 (code bug): with split manifest `[(id1, "1"), (id2, "0")]` and
mode "train", `_load_samples` does yield exactly one entry for id1 — but
because its second pass re-reads the split file in place of the
images-list file, the entry joins the flag string "1" under root and the
image directory, not the images-list path recorded for id1. -/
theorem load_samples_joins_flag_not_path :
    load_samples "r" [("id1", "1"), ("id2", "0")]
        [("id1", "001.b/x.jpg"), ("id2", "001.b/y.jpg")] "train"
      = [osPathJoin (osPathJoin "r" image_dir) "1"] ∧
    load_samples_spec "r" [("id1", "1"), ("id2", "0")]
        [("id1", "001.b/x.jpg"), ("id2", "001.b/y.jpg")] "train"
      = [osPathJoin (osPathJoin "r" image_dir) "001.b/x.jpg"] ∧
    osPathJoin (osPathJoin "r" image_dir) "1"
      ≠ osPathJoin (osPathJoin "r" image_dir) "001.b/x.jpg" := by
  refine ⟨rfl, rfl, ?_⟩
  decide

/-- Python `str.split('.')`: cut the string at every dot. -/
def splitDotAux : List Char → List Char → List (List Char)
  | [], acc => [acc.reverse]
  | c :: cs, acc =>
      if c = '.' then acc.reverse :: splitDotAux cs [] else splitDotAux cs (c :: acc)

/-- Python `str.split('.')` on a string. -/
def pySplitDot (s : String) : List String := (splitDotAux s.data []).map String.mk

/-- The numeric value of a decimal digit. -/
def digitVal (c : Char) : Option Nat :=
  if c.isDigit then some (c.toNat - '0'.toNat) else none

/-- Fold decimal digits into a number, failing on a non-digit. -/
def parseNatAux : List Char → Nat → Option Nat
  | [], acc => some acc
  | c :: cs, acc =>
      match digitVal c with
      | some d => parseNatAux cs (acc * 10 + d)
      | none => none

/-- Python `int(...)` on plain decimal literals with an optional minus
sign (`none` models the ValueError). -/
def pyInt (s : String) : Option Int :=
  match s.data with
  | [] => none
  | '-' :: rest =>
      if rest.isEmpty then none else (parseNatAux rest 0).map (fun n => -(n : Int))
  | l => (parseNatAux l 0).map (fun n => (n : Int))

/-- One iteration of `_load_categories`'s loop body:
`index, category = name.split('.')` followed by `int(index)`; `none`
models the exception raised when an entry does not have exactly one dot
or a numeric index. -/
def parseEntry (entry : String) : Option (Int × String) :=
  match pySplitDot entry with
  | [index, category] => (pyInt index).map (fun i => (i, category))
  | _ => none

/-- `CUB_200_2011._load_categories`'s loop over
`os.listdir(image_dir)`: build the insertion-ordered dicts
`category2index` (category ↦ index - 1) and `index2category`
(index - 1 ↦ category). -/
def load_categories :
    List String → List (String × Int) × List (Int × String) →
    Option (List (String × Int) × List (Int × String))
  | [], acc => some acc
  | entry :: rest, acc =>
      match parseEntry entry with
      | none => none
      | some (i, category) =>
          load_categories rest
            (dictInsert acc.1 category (i - 1), dictInsert acc.2 (i - 1) category)

/-- `FGVCDataset.encode_category`: `self.category2index[category]`
(`none` models the KeyError). -/
def encode_category (c2i : List (String × Int)) (category : String) : Option Int :=
  List.lookup category c2i

/-- `FGVCDataset.decode_category`: `self.index2category[index]`. -/
def decode_category (i2c : List (Int × String)) (index : Int) : Option String :=
  List.lookup index i2c

/-- C10 counterexample: the directory entries `"1.a"` and `"1.b"` both
have the form `<index>.<name>`, yet the maps `_load_categories` builds
are not inverse to each other: the second entry overwrites index 0 in
`index2category`, so `decode_category (1 - 1)` returns `"b"` for the
entry `"1.a"`, and `decode_category (encode_category "a")` is `"b"`,
not `"a"`. -/
theorem categories_duplicate_index_not_bijective :
    load_categories ["1.a", "1.b"] ([], [])
      = some ([("a", 0), ("b", 0)], [(0, "b")]) ∧
    ¬ decode_category [((0 : Int), "b")] ((1 : Int) - 1) = some "a" ∧
    (encode_category [("a", 0), ("b", 0)] "a").bind (decode_category [((0 : Int), "b")])
      = some "b" := by
  refine ⟨rfl, by decide, rfl⟩

theorem load_categories_append (entries : List String) (pairs : List (Int × String))
    (hparse : List.Forall₂ (fun e p => parseEntry e = some p) entries pairs) :
    ∀ c2i i2c,
      (∀ p ∈ pairs, p.2 ∉ c2i.map Prod.fst) →
      (∀ p ∈ pairs, (p.1 - 1) ∉ i2c.map Prod.fst) →
      (pairs.map Prod.snd).Nodup →
      (pairs.map Prod.fst).Nodup →
      load_categories entries (c2i, i2c)
        = some (c2i ++ pairs.map (fun p => (p.2, p.1 - 1)),
                i2c ++ pairs.map (fun p => (p.1 - 1, p.2))) := by
  induction hparse with
  | nil =>
      intro c2i i2c _ _ _ _
      simp [load_categories]
  | @cons e p es ps hep hrest ih =>
      rcases p with ⟨i, c⟩
      intro c2i i2c hc hi hnds hndf
      simp only [List.map_cons, List.nodup_cons] at hnds hndf
      have hc0 : c ∉ c2i.map Prod.fst := by
        simpa using hc (i, c) (List.mem_cons_self _ _)
      have hi0 : (i - 1) ∉ i2c.map Prod.fst := by
        simpa using hi (i, c) (List.mem_cons_self _ _)
      have step : load_categories (e :: es) (c2i, i2c)
          = load_categories es (dictInsert c2i c (i - 1), dictInsert i2c (i - 1) c) := by
        simp only [load_categories, hep]
      have hc1 : ∀ q ∈ ps, q.2 ∉ (c2i ++ [(c, i - 1)]).map Prod.fst := by
        intro q hq
        simp only [List.map_append, List.mem_append, List.map_cons, List.map_nil,
          List.mem_singleton]
        push_neg
        refine ⟨fun hmem => hc q (List.mem_cons_of_mem _ hq) hmem, ?_⟩
        intro he
        exact hnds.1 (he ▸ List.mem_map_of_mem Prod.snd hq)
      have hi1 : ∀ q ∈ ps, (q.1 - 1) ∉ (i2c ++ [(i - 1, c)]).map Prod.fst := by
        intro q hq
        simp only [List.map_append, List.mem_append, List.map_cons, List.map_nil,
          List.mem_singleton]
        push_neg
        refine ⟨fun hmem => hi q (List.mem_cons_of_mem _ hq) hmem, ?_⟩
        intro he
        have hq1 : q.1 = i := by omega
        exact hndf.1 (hq1 ▸ List.mem_map_of_mem Prod.fst hq)
      rw [step, dictInsert_of_not_mem c2i c (i - 1) hc0,
          dictInsert_of_not_mem i2c (i - 1) c hi0,
          ih (c2i ++ [(c, i - 1)]) (i2c ++ [(i - 1, c)]) hc1 hi1 hnds.2 hndf.2]
      simp [List.append_assoc]

theorem lookup_pairs_by_category {pairs : List (Int × String)} {p : Int × String}
    (hmem : p ∈ pairs) (hnd : (pairs.map Prod.snd).Nodup) :
    List.lookup p.2 (pairs.map (fun q => (q.2, q.1 - 1))) = some (p.1 - 1) := by
  induction pairs with
  | nil => cases hmem
  | cons q rest ih =>
      simp only [List.map_cons, List.nodup_cons] at hnd
      rcases List.mem_cons.mp hmem with rfl | hmem'
      · simp [List.lookup]
      · have hne : (p.2 == q.2) = false := by
          rw [beq_eq_false_iff_ne]
          intro he
          exact hnd.1 (he ▸ List.mem_map_of_mem Prod.snd hmem')
        simp [List.lookup, hne, ih hmem' hnd.2]

theorem lookup_pairs_by_index {pairs : List (Int × String)} {p : Int × String}
    (hmem : p ∈ pairs) (hnd : (pairs.map Prod.fst).Nodup) :
    List.lookup (p.1 - 1) (pairs.map (fun q => (q.1 - 1, q.2))) = some p.2 := by
  induction pairs with
  | nil => cases hmem
  | cons q rest ih =>
      simp only [List.map_cons, List.nodup_cons] at hnd
      rcases List.mem_cons.mp hmem with rfl | hmem'
      · simp [List.lookup]
      · have hne : (p.1 - 1 == q.1 - 1) = false := by
          rw [beq_eq_false_iff_ne]
          intro he
          have hq1 : p.1 = q.1 := by omega
          exact hnd.1 (hq1 ▸ List.mem_map_of_mem Prod.fst hmem')
        simp [List.lookup, hne, ih hmem' hnd.2]

/-- C10 (amended): for image-directory entries all of the form
`<index>.<name>`, provided the numeric indices are pairwise distinct and
the category names are pairwise distinct, the category index built at
construction is a bijection shifted by one: for every entry,
`encode_category name = index - 1`, `decode_category (index - 1) = name`,
and `decode_category (encode_category name) = name`.  (As stated the
claim fails: entries sharing an index or a category name overwrite each
other in the two dicts.) -/
theorem categories_bijection (entries : List String) (pairs : List (Int × String))
    (hparse : List.Forall₂ (fun e p => parseEntry e = some p) entries pairs)
    (hcat : (pairs.map Prod.snd).Nodup) (hidx : (pairs.map Prod.fst).Nodup)
    (d : List (String × Int) × List (Int × String))
    (hload : load_categories entries ([], []) = some d) :
    ∀ p ∈ pairs,
      encode_category d.1 p.2 = some (p.1 - 1) ∧
      decode_category d.2 (p.1 - 1) = some p.2 ∧
      (encode_category d.1 p.2).bind (decode_category d.2) = some p.2 := by
  have h := load_categories_append entries pairs hparse [] []
      (by simp) (by simp) hcat hidx
  rw [hload] at h
  injection h with hd
  intro p hp
  rw [hd]
  simp only [encode_category, decode_category, List.nil_append]
  refine ⟨lookup_pairs_by_category hp hcat, lookup_pairs_by_index hp hidx, ?_⟩
  rw [lookup_pairs_by_category hp hcat, Option.some_bind]
  exact lookup_pairs_by_index hp hidx

theorem categories_bijection_witness :
    encode_category [("sparrow", (1 : Int) - 1), ("owl", (2 : Int) - 1)] "sparrow"
      = some ((1 : Int) - 1) ∧
    decode_category [((1 : Int) - 1, "sparrow"), ((2 : Int) - 1, "owl")] ((1 : Int) - 1)
      = some "sparrow" ∧
    (encode_category [("sparrow", (1 : Int) - 1), ("owl", (2 : Int) - 1)] "sparrow").bind
        (decode_category [((1 : Int) - 1, "sparrow"), ((2 : Int) - 1, "owl")])
      = some "sparrow" := by
  have h := categories_bijection ["1.sparrow", "2.owl"] [(1, "sparrow"), (2, "owl")]
      (List.Forall₂.cons rfl (List.Forall₂.cons rfl List.Forall₂.nil))
      (by decide) (by decide)
      ([("sparrow", (1 : Int) - 1), ("owl", (2 : Int) - 1)],
       [((1 : Int) - 1, "sparrow"), ((2 : Int) - 1, "owl")]) rfl
      (1, "sparrow") (List.mem_cons_self _ _)
  exact h

theorem takeWhile_append_all {α : Type} (p : α → Bool) (xs ys : List α)
    (h : ∀ x ∈ xs, p x = true) :
    (xs ++ ys).takeWhile p = xs ++ ys.takeWhile p := by
  induction xs with
  | nil => simp
  | cons a rest ih =>
      have ha := h a (List.mem_cons_self _ _)
      simp [List.takeWhile_cons, ha, ih (fun x hx => h x (List.mem_cons_of_mem _ hx))]

theorem tgzJoin_data (root : String) :
    ∃ pre, (osPathJoin root "CUB_200_2011.tgz").data = pre ++ "CUB_200_2011.tgz".data ∧
      (pre = [] ∨ ∃ xs, pre = xs ++ ['/']) := by
  unfold osPathJoin
  rw [if_neg (by decide)]
  by_cases h : root = "" ∨ root.data.getLast? = some '/'
  · rw [if_pos h]
    rcases h with h1 | h2
    · subst h1
      exact ⟨[], by simp [String.data_append], Or.inl rfl⟩
    · refine ⟨root.data, by simp [String.data_append], Or.inr ⟨root.data.dropLast, ?_⟩⟩
      exact (List.dropLast_append_getLast? _ h2).symm
  · rw [if_neg h]
    refine ⟨root.data ++ ['/'], ?_, Or.inr ⟨root.data, rfl⟩⟩
    simp [String.data_append]

theorem pyBasename_tgzJoin (root : String) :
    pyBasename (osPathJoin root "CUB_200_2011.tgz") = "CUB_200_2011.tgz" := by
  obtain ⟨pre, hdata, hpre⟩ := tgzJoin_data root
  unfold pyBasename
  rw [hdata, List.reverse_append]
  have hall : ∀ c ∈ "CUB_200_2011.tgz".data.reverse, (!(c == '/')) = true := by decide
  rw [takeWhile_append_all _ _ _ hall]
  rcases hpre with rfl | ⟨xs, rfl⟩
  · simp
  · rw [List.reverse_append]
    simp [List.takeWhile_cons]

theorem strEndsWith_tgzJoin (root : String) :
    strEndsWith (osPathJoin root "CUB_200_2011.tgz") ".gz" = false ∧
    strEndsWith (osPathJoin root "CUB_200_2011.tgz") ".tar" = false ∧
    strEndsWith (osPathJoin root "CUB_200_2011.tgz") ".zip" = false ∧
    strEndsWith (osPathJoin root "CUB_200_2011.tgz") ".tgz" = true := by
  obtain ⟨pre, hdata, _⟩ := tgzJoin_data root
  refine ⟨?_, ?_, ?_, ?_⟩ <;>
    (unfold strEndsWith
     rw [hdata, List.reverse_append, List.take_append_of_le_length (by decide)]
     decide)

/-! ## Dataset download (`CUB_200_2011.download`, `fgvclib/datasets/datasets.py`) -/

/-- The filesystem/network world `download` acts on: existing paths,
fetched URLs, performed extractions (archive ↦ destination directory),
and files written by `_un_gz`. -/
structure DlState where
  existsPaths : List String
  fetched : List String
  extracted : List (String × String)
  written : List String
deriving DecidableEq

/-- `FGVCDataset._un_gz`: decompress, writing a file named by the
archive's basename. -/
def un_gz (package : String) (s : DlState) : DlState :=
  { s with written := s.written ++ [pyBasename package] }

/-- `FGVCDataset._un_tgz`: extract the tar into
`os.path.join(os.path.dirname(package), os.path.basename(package).split('.')[0])`. -/
def un_tgz (package : String) (s : DlState) : DlState :=
  { s with extracted := s.extracted
      ++ [(package, osPathJoin (pyDirname package) (headBeforeDot (pyBasename package)))] }

/-- `FGVCDataset._extract_file`: dispatch on the package suffix in
source order (`.tar` and `.zip` are explicit no-ops, anything else
falls through). -/
def extract_file (package : String) (s : DlState) : DlState :=
  if strEndsWith package ".gz" then un_gz package s
  else if strEndsWith package ".tar" then s
  else if strEndsWith package ".zip" then s
  else if strEndsWith package ".tgz" then un_tgz package s
  else s

/-- `CUB_200_2011.download`: do nothing when `root/CUB_200_2011` exists
and no overwrite is requested; otherwise fetch the archive to
`root/CUB_200_2011.tgz` unless that file is already present, then
extract it. -/
def download (root : String) (overwrite : Bool) (s : DlState) : DlState :=
  if s.existsPaths.contains (osPathJoin root "CUB_200_2011") && !overwrite then s
  else
    let tgz := osPathJoin root "CUB_200_2011.tgz"
    let s1 :=
      if s.existsPaths.contains tgz then s
      else { s with fetched := s.fetched ++ [download_link],
                    existsPaths := s.existsPaths ++ [tgz] }
    extract_file tgz s1

/-- C8: `download` is a no-op when `root/CUB_200_2011` exists and no
overwrite is requested (no fetch, no extraction, no state change at
all); otherwise the archive is fetched only if `root/CUB_200_2011.tgz`
is absent, and the `.tgz` archive is extracted into the subdirectory of
the archive's directory named `"CUB_200_2011"` — the archive's base
filename with its extension stripped. -/
theorem download_behaviour (root : String) (s : DlState) :
    ((osPathJoin root "CUB_200_2011") ∈ s.existsPaths → download root false s = s) ∧
    ((osPathJoin root "CUB_200_2011") ∉ s.existsPaths →
      (osPathJoin root "CUB_200_2011.tgz") ∈ s.existsPaths →
      download root false s
        = { s with extracted := s.extracted
              ++ [(osPathJoin root "CUB_200_2011.tgz",
                   osPathJoin (pyDirname (osPathJoin root "CUB_200_2011.tgz"))
                     "CUB_200_2011")] }) ∧
    ((osPathJoin root "CUB_200_2011") ∉ s.existsPaths →
      (osPathJoin root "CUB_200_2011.tgz") ∉ s.existsPaths →
      download root false s
        = { s with fetched := s.fetched ++ [download_link],
                   existsPaths := s.existsPaths ++ [osPathJoin root "CUB_200_2011.tgz"],
                   extracted := s.extracted
              ++ [(osPathJoin root "CUB_200_2011.tgz",
                   osPathJoin (pyDirname (osPathJoin root "CUB_200_2011.tgz"))
                     "CUB_200_2011")] }) := by
  have hends := strEndsWith_tgzJoin root
  have hbase := pyBasename_tgzJoin root
  have hhead : headBeforeDot "CUB_200_2011.tgz" = "CUB_200_2011" := rfl
  refine ⟨?_, ?_, ?_⟩
  · intro h
    simp [download, h]
  · intro hdir htgz
    simp [download, hdir, htgz, extract_file, hends.1, hends.2.1, hends.2.2.1, hends.2.2.2,
      un_tgz, hbase, hhead]
  · intro hdir htgz
    simp [download, hdir, htgz, extract_file, hends.1, hends.2.1, hends.2.2.1, hends.2.2.2,
      un_tgz, hbase, hhead]

theorem download_behaviour_witness :
    download "data" false ⟨[osPathJoin "data" "CUB_200_2011"], [], [], []⟩
      = ⟨[osPathJoin "data" "CUB_200_2011"], [], [], []⟩ ∧
    download "data" false ⟨[], [], [], []⟩
      = ⟨[osPathJoin "data" "CUB_200_2011.tgz"], [download_link],
         [(osPathJoin "data" "CUB_200_2011.tgz",
           osPathJoin (pyDirname (osPathJoin "data" "CUB_200_2011.tgz")) "CUB_200_2011")],
         []⟩ := by
  constructor
  · exact (download_behaviour "data" ⟨[osPathJoin "data" "CUB_200_2011"], [], [], []⟩).1
      (List.mem_singleton.mpr rfl)
  · have h := (download_behaviour "data" ⟨[], [], [], []⟩).2.2
      (List.not_mem_nil _) (List.not_mem_nil _)
    simpa using h
